import Mathlib

/-!
Verification development for the etherfi-bids exporter
(src/etherfi-bids-exporter.py).

The exporter polls a GraphQL endpoint for bid records, stores them in a
SQLite database (tables Bid and Validator), and publishes aggregate gauges.
This file gives a shallow embedding of the program: structures mirror the
JSON records and database rows, pure functions mirror the methods
record_bids, get_our_bids, get_active_bids and api_post_request, gauge
writes are accumulated in lists, and Python exceptions are modelled with
Except / an explicit error component.  SQLite specifics that the program
relies on are modelled explicitly: INSERT OR REPLACE keyed by the primary
key, COLLATE NOCASE (ASCII case folding), MIN/MAX over a TEXT column
(byte-wise comparison of the stored strings), and one implicit transaction
per connection committed by conn.commit().
-/

namespace EtherFiBids

/-! ### Character and string helpers (SQLite NOCASE, BINARY collation, decimal parsing) -/

/-- ASCII lower-casing of one character, as used by the SQLite NOCASE
collation: only the 26 upper-case ASCII letters are folded. -/
def asciiLower (c : Char) : Char :=
  if 65 ≤ c.toNat ∧ c.toNat ≤ 90 then Char.ofNat (c.toNat + 32) else c

/-- The comparison performed by the SQL condition
`bidderAddress = <literal> COLLATE NOCASE`:
equality after ASCII case folding. -/
def eqNoCase (s t : String) : Bool :=
  s.data.map asciiLower == t.data.map asciiLower

/-- Byte-wise (code-point-wise) string order, the comparison that the
default BINARY collation of SQLite applies to TEXT values, e.g. inside MIN(amount)
and MAX(amount).  On UTF-8 text, byte order and code-point order agree. -/
def strLe : List Char → List Char → Bool
  | [], _ => true
  | _ :: _, [] => false
  | a :: as, b :: bs =>
    if a.toNat < b.toNat then true
    else if b.toNat < a.toNat then false
    else strLe as bs

/-- Value of one decimal digit, if the character is one. -/
def digitVal (c : Char) : Option Nat :=
  if 48 ≤ c.toNat ∧ c.toNat ≤ 57 then some (c.toNat - 48) else none

/-- Decimal reading of a digit string (the numeric magnitude of an
`amount` value; also models float() succeeding on such strings). -/
def natOfDigits : List Char → Option Nat
  | [] => none
  | cs => cs.foldl (fun acc c => acc.bind fun n => (digitVal c).map fun d => 10 * n + d) (some 0)

/-! ### Data model: the GraphQL records and the two SQLite tables -/

/-- The nested validator payload of a fetched bid record. -/
structure ValidatorPayload where
  id : String
  phase : String
  validatorPubKey : String
  blockNumber : Nat
  blockTimestamp : Nat
  transactionHash : String
  deriving Repr, DecidableEq

/-- One bid record as returned by the GraphQL API in record_bids. -/
structure Bid where
  id : String
  bidderAddress : String
  pubKeyIndex : Nat
  status : String
  amount : String
  blockNumber : Nat
  blockTimestamp : Nat
  transactionHash : String
  validator : Option ValidatorPayload
  deriving Repr, DecidableEq

/-- One row of the SQLite table Bid (primary key id). -/
structure BidRow where
  id : String
  bidderAddress : String
  pubKeyIndex : Nat
  status : String
  amount : String
  blockNumber : Nat
  blockTimestamp : Nat
  transactionHash : String
  deriving Repr, DecidableEq

/-- One row of the SQLite table Validator (primary key bid_id). -/
structure ValidatorRow where
  bid_id : String
  phase : String
  pubKey : String
  blockNumber : Nat
  blockTimestamp : Nat
  transactionHash : String
  deriving Repr, DecidableEq

/-- The local SQLite store: the two tables. -/
structure Store where
  bids : List BidRow
  validators : List ValidatorRow
  deriving Repr, DecidableEq

/-- The empty database (fresh file, tables just created). -/
def emptyStore : Store := ⟨[], []⟩

/-- INSERT OR REPLACE INTO Bid: the row with the same primary key, if any,
is deleted and the new row inserted. -/
def insertOrReplaceBid (t : List BidRow) (r : BidRow) : List BidRow :=
  r :: t.filter fun x => x.id != r.id

/-- INSERT OR REPLACE INTO Validator, keyed by bid_id. -/
def insertOrReplaceValidator (t : List ValidatorRow) (r : ValidatorRow) : List ValidatorRow :=
  r :: t.filter fun x => x.bid_id != r.bid_id

/-- Conversion of a fetched bid record to its Bid table row. -/
def bidToRow (b : Bid) : BidRow :=
  ⟨b.id, b.bidderAddress, b.pubKeyIndex, b.status, b.amount,
   b.blockNumber, b.blockTimestamp, b.transactionHash⟩

/-- Conversion of a fetched validator payload to its Validator table row;
the code stores the id field of the bid as bid_id. -/
def validatorToRow (bidId : String) (v : ValidatorPayload) : ValidatorRow :=
  ⟨bidId, v.phase, v.validatorPubKey, v.blockNumber, v.blockTimestamp, v.transactionHash⟩

/-- The store updates performed for one fetched bid inside record_bids:
upsert the Bid row, then the Validator row when the nested payload is
present. -/
def applyBid (st : Store) (b : Bid) : Store :=
  let st1 : Store := { st with bids := insertOrReplaceBid st.bids (bidToRow b) }
  match b.validator with
  | none => st1
  | some v => { st1 with validators := insertOrReplaceValidator st1.validators (validatorToRow b.id v) }

/-- The store updates for a whole fetched batch, in batch order. -/
def applyBatch (st : Store) (l : List Bid) : Store :=
  l.foldl applyBid st

/-! ### SQL aggregate queries of the exporter -/

/-- Rows satisfying `WHERE bidderAddress = <addr> COLLATE NOCASE`. -/
def matchingBids (t : List BidRow) (addr : String) : List BidRow :=
  t.filter fun r => eqNoCase r.bidderAddress addr

/-- The per-status count the GROUP BY query yields for one status. -/
def countStatus (t : List BidRow) (addr st : String) : Nat :=
  (matchingBids t addr).countP fun r => r.status == st

/-- The amount column of the rows matching
`bidderAddress = <addr> COLLATE NOCASE AND status = "ACTIVE"`. -/
def activeAmounts (t : List BidRow) (addr : String) : List String :=
  (t.filter fun r => eqNoCase r.bidderAddress addr && r.status == "ACTIVE").map fun r => r.amount

/-- SQLite MIN over a list of TEXT values: byte-wise comparison, NULL on an
empty set of rows. -/
def textMin : List String → Option String
  | l => l.foldl (fun acc s =>
      match acc with
      | none => some s
      | some m => if strLe m.data s.data then some m else some s) none

/-- SQLite MAX over a list of TEXT values. -/
def textMax : List String → Option String
  | l => l.foldl (fun acc s =>
      match acc with
      | none => some s
      | some m => if strLe s.data m.data then some m else some s) none

/-- The single row returned by
`SELECT MIN(amount), MAX(amount) FROM Bid WHERE bidderAddress = <addr>
COLLATE NOCASE AND status = "ACTIVE"`.  An aggregate SELECT without GROUP
BY always yields exactly one row; with no matching rows it is (NULL, NULL). -/
def sqlMinMaxAmount (t : List BidRow) (addr : String) : Option String × Option String :=
  (textMin (activeAmounts t addr), textMax (activeAmounts t addr))

/-- First-occurrence deduplication of a key list (the set of groups a
GROUP BY query reports). -/
def distinctKeys : List String → List String
  | [] => []
  | s :: rest => s :: (distinctKeys rest).filter fun t => t != s

/-- Result set of a `SELECT key, COUNT(*) ... GROUP BY key` query over the
given key column values: one row per distinct key with its multiplicity. -/
def groupCount (keys : List String) : List (String × Nat) :=
  (distinctKeys keys).map fun k => (k, keys.count k)

/-- The result rows of the GROUP BY status query of get_our_bids. -/
def groupByStatus (rows : List BidRow) : List (String × Nat) :=
  groupCount (rows.map fun r => r.status)

/-! ### Gauges, Python values and errors -/

/-- A Python value handed to Gauge.set (or stored in a local). -/
inductive PyVal where
  | vNone
  | vStr (s : String)
  | vNat (n : Nat)
  deriving Repr, DecidableEq

/-- One write to a Prometheus gauge: metric name, label pairs, value. -/
structure GaugeWrite where
  gauge : String
  labels : List (String × String)
  value : PyVal
  deriving Repr, DecidableEq

/-- The Python exceptions the exporter can raise in the modelled paths. -/
inductive PyErr where
  | typeError
  | valueError
  | operationalError
  | timeoutErr
  | jsonDecodeErr
  | outOfFuel
  deriving Repr, DecidableEq

/-! ### get_our_bids: the status-count gauges -/

/-- The statuses known to get_our_bids, in dict insertion order. -/
def knownStatuses : List String := ["WON", "ACTIVE", "CANCELLED"]

/-- The Python dict status_counts, with its three fixed keys. -/
structure StatusCounts where
  won : Nat
  active : Nat
  cancelled : Nat
  deriving Repr, DecidableEq

/-- One step of the `for status, count in rows` loop of get_our_bids:
known statuses overwrite the dict entry, unknown ones are logged and
skipped. -/
def statusStep (p : StatusCounts × List String) (r : String × Nat) : StatusCounts × List String :=
  if r.1 = "WON" then ({ p.1 with won := r.2 }, p.2)
  else if r.1 = "ACTIVE" then ({ p.1 with active := r.2 }, p.2)
  else if r.1 = "CANCELLED" then ({ p.1 with cancelled := r.2 }, p.2)
  else (p.1, p.2 ++ ["Unknown Bid Status: " ++ r.1])

/-- get_our_bids: runs the GROUP BY status query, folds the rows into the
zero-initialised dict, then writes the three gauges (in dict order), each
labelled with the configured bidder address.  Returns the gauge writes and
the log lines for unknown statuses. -/
def get_our_bids (t : List BidRow) (addr : String) : List GaugeWrite × List String :=
  let rows := groupByStatus (matchingBids t addr)
  let p := rows.foldl statusStep (⟨0, 0, 0⟩, [])
  ([⟨"etherfi_bids_winning", [("bidder_address", addr)], .vNat p.1.won⟩,
    ⟨"etherfi_bids_active", [("bidder_address", addr)], .vNat p.1.active⟩,
    ⟨"etherfi_bids_cancelled", [("bidder_address", addr)], .vNat p.1.cancelled⟩],
   p.2)

/-! ### api_post_request: the HTTP POST with health gauge -/

/-- Outcome of the underlying requests.post call: either it raises
(timeout, connection failure) before returning, or it yields a response
with a status code and a body; `none` for the body means response.json()
would fail to parse it. -/
inductive HttpResult (α : Type) where
  | timeout
  | response (status : Nat) (body : Option α)

/-- What one api_post_request call did: the values written to the
etherfi_bids_api_health gauge, in order, and either the Python return
value (`ok none` is the Python None, returned on a non-200 status) or the
exception it raised. -/
structure ApiResult (α : Type) where
  healthWrites : List Nat
  outcome : Except PyErr (Option α)
  deriving Repr

/-- api_post_request: a raising post writes nothing; a non-200 response is
logged, writes 0 and returns None; a 200 response writes 1 and only then
parses the body, raising on malformed JSON. -/
def api_post_request {α : Type} (r : HttpResult α) : ApiResult α :=
  match r with
  | .timeout => ⟨[], .error .timeoutErr⟩
  | .response s body =>
    if s != 200 then ⟨[0], .ok none⟩
    else
      match body with
      | none => ⟨[1], .error .jsonDecodeErr⟩
      | some j => ⟨[1], .ok (some j)⟩

/-! ### record_bids: paginated fetch, sort, store -/

/-- The body of one bids page, after JSON parsing: `none` models a
response lacking the expected data/bids shape, `some l` the list of bid
records of the page. -/
abbrev BidsPage := Option (List Bid)

/-- The fetch loop of record_bids.  Each iteration posts the range query
for pubKeyIndex in [start, start + 1000); `start` then advances by 1000.
The loop breaks (returning the accumulator) when the response lacks the
expected shape or the page is empty.  A None result (returned by
api_post_request on a non-200 status) makes the membership test
`"data" not in result` raise a TypeError.  Fuel bounds the number of
iterations; every theorem below supplies enough fuel for the loop to
reach its break. -/
def fetchBidsLoop (remote : Nat → HttpResult BidsPage) : Nat → Nat → List Bid → Except PyErr (List Bid)
  | 0, _, _ => .error .outOfFuel
  | fuel + 1, start, acc =>
    match (api_post_request (remote start)).outcome with
    | .error e => .error e
    | .ok none => .error .typeError
    | .ok (some none) => .ok acc
    | .ok (some (some [])) => .ok acc
    | .ok (some (some (b :: bs))) => fetchBidsLoop remote fuel (start + 1000) (acc ++ (b :: bs))

/-- The ascending-by-pubKeyIndex order record_bids sorts by. -/
def byIndex (a b : Bid) : Prop := a.pubKeyIndex ≤ b.pubKeyIndex

instance : DecidableRel byIndex := fun a b => Nat.decLe a.pubKeyIndex b.pubKeyIndex

instance : IsTotal Bid byIndex := ⟨fun a b => Nat.le_total a.pubKeyIndex b.pubKeyIndex⟩

instance : IsTrans Bid byIndex := ⟨fun _ _ _ h1 h2 => Nat.le_trans h1 h2⟩

/-- The Python call sorted(all_bids, key=int(pubKeyIndex)): a stable ascending
sort, modelled by insertion sort. -/
def sortBids (l : List Bid) : List Bid := List.insertionSort byIndex l

/-- The accumulated, sorted sequence record_bids stores (or the exception
the fetch phase raised). -/
def fetchSortedBids (remote : Nat → HttpResult BidsPage) (fuel : Nat) : Except PyErr (List Bid) :=
  (fetchBidsLoop remote fuel 0 []).map sortBids

/-- record_bids: fetch all pages, sort, upsert every record into the
store.  Returns the updated store and the number of stored records. -/
def record_bids (remote : Nat → HttpResult BidsPage) (fuel : Nat) (st : Store) :
    Except PyErr (Store × Nat) :=
  (fetchSortedBids remote fuel).map fun l => (applyBatch st l, l.length)

/-- The page an ideally behaving GraphQL server returns for the window
[start, start + 1000): exactly the records of the dataset whose
pubKeyIndex lies in the window (their count is at most the window width,
so the `first: 1000` bound never truncates when indices are distinct). -/
def window (db : List Bid) (start : Nat) : List Bid :=
  db.filter fun b => decide (start ≤ b.pubKeyIndex) && decide (b.pubKeyIndex < start + 1000)

/-- A remote that faithfully serves the dataset db: every range query
succeeds with status 200 and a well-shaped body. -/
def idealServer (db : List Bid) : Nat → HttpResult BidsPage :=
  fun start => .response 200 (some (some (window db start)))

/-- The largest pubKeyIndex of the dataset (0 when empty). -/
def maxIdx (db : List Bid) : Nat :=
  db.foldr (fun b m => max b.pubKeyIndex m) 0

/-- Gap-freedom of a dataset: every window that still has a record at or
beyond its start is itself nonempty.  Exactly when this fails, the fetch
loop of record_bids breaks on an empty page although later records
remain. -/
def NoGap (db : List Bid) : Prop :=
  ∀ k : Nat, (∃ b ∈ db, 1000 * k ≤ b.pubKeyIndex) → window db (1000 * k) ≠ []

/-! ### get_active_bids: remote extrema, then own min/max from the store -/

/-- One entry of the othersMin/othersMax arrays of the extrema query. -/
structure ExtremaEntry where
  bidderAddress : String
  amount : String
  deriving Repr, DecidableEq

/-- The parsed body of the extrema query: `none` models a body failing the
shape check (missing data/othersMin/othersMax), otherwise the two arrays. -/
abbrev ExtremaBody := Option (List ExtremaEntry × List ExtremaEntry)

/-- Gauge.set converts its argument with float(): None raises TypeError,
a non-numeric string raises ValueError (amount values are digit strings). -/
def setGaugeErr : PyVal → Option PyErr
  | .vNone => some .typeError
  | .vStr s => if (natOfDigits s.data).isSome then none else some .valueError
  | .vNat _ => none

/-- Sequential gauge writes: each set() either records its write or raises,
abandoning the rest. -/
def runWrites (init : List GaugeWrite) : List GaugeWrite → List GaugeWrite × Option PyErr
  | [] => (init, none)
  | w :: ws =>
    match setGaugeErr w.value with
    | some e => (init, some e)
    | none => runWrites (init ++ [w]) ws

/-- The Python value of one SQL aggregate cell (NULL becomes None). -/
def pyValOfCell : Option String → PyVal
  | none => .vNone
  | some s => .vStr s

/-- A write to the api-health gauge. -/
def healthWrite (n : Nat) : GaugeWrite := ⟨"etherfi_bids_api_health", [], .vNat n⟩

/-- get_active_bids: posts the others-extrema query; on a missing shape or
an empty array it returns early, skipping every amount-gauge write; a None
result raises at the membership test.  Otherwise it writes the two
others gauges, then queries the local store for MIN(amount), MAX(amount)
of the own active bids and writes the two own gauges with the cells of the
single returned row.  (fetchone() on this aggregate query always yields a
row, so the zero-default branch of the code is unreachable; with no
matching rows the cells are NULL and set(None) raises.)  Returns the gauge
writes performed and the exception raised, if any. -/
def get_active_bids (remote : HttpResult ExtremaBody) (t : List BidRow) (addr : String) :
    List GaugeWrite × Option PyErr :=
  let api := api_post_request remote
  let hw := api.healthWrites.map healthWrite
  match api.outcome with
  | .error e => (hw, some e)
  | .ok none => (hw, some .typeError)
  | .ok (some none) => (hw, none)
  | .ok (some (some (mins, maxs))) =>
    match mins, maxs with
    | [], _ => (hw, none)
    | _ :: _, [] => (hw, none)
    | m0 :: _, mx0 :: _ =>
      let p1 := runWrites hw
        [⟨"etherfi_bids_amount_min", [("bidder_address", m0.bidderAddress), ("status", "active")], .vStr m0.amount⟩,
         ⟨"etherfi_bids_amount_max", [("bidder_address", mx0.bidderAddress), ("status", "active")], .vStr mx0.amount⟩]
      match p1.2 with
      | some e => (p1.1, some e)
      | none =>
        let cells := sqlMinMaxAmount t addr
        runWrites p1.1
          [⟨"etherfi_bids_amount_min", [("bidder_address", addr), ("status", "active")], pyValOfCell cells.1⟩,
           ⟨"etherfi_bids_amount_max", [("bidder_address", addr), ("status", "active")], pyValOfCell cells.2⟩]

/-! ### The scheduler cycle -/

/-- The environment one cycle of do() runs against: the remote behaviour
for the bids pages and for the extrema query, the configured bidder
address and the fetch-loop fuel. -/
structure CycleEnv where
  bidsRemote : Nat → HttpResult BidsPage
  extremaRemote : HttpResult ExtremaBody
  bidder : String
  fuel : Nat

/-- One cycle of the do() loop: record_bids, get_our_bids,
get_active_bids, get_validators_phase, run in order with no try/except
anywhere; an exception in any step propagates out of do() (modelled by
Except.error) and terminates the process.  get_our_bids and
get_validators_phase only read the store and write gauges and cannot
raise in this model. -/
def do_cycle (env : CycleEnv) (st : Store) : Except PyErr Store :=
  match record_bids env.bidsRemote env.fuel st with
  | .error e => .error e
  | .ok (st1, _) =>
    match (get_active_bids env.extremaRemote st1.bids env.bidder).2 with
    | some e => .error e
    | none => .ok st1

/-! ### get_validators_phase: the join and phase counts -/

/-- The phase column of
`SELECT Validator.phase, COUNT(*) FROM Validator JOIN Bid ON
Bid.id = Validator.bid_id WHERE Bid.bidderAddress = <addr> COLLATE
NOCASE GROUP BY Validator.phase`: one entry per joined row that passes
the bidder filter. -/
def joinPhases (vt : List ValidatorRow) (bt : List BidRow) (addr : String) : List String :=
  vt.flatMap fun v =>
    ((bt.filter fun b => b.id == v.bid_id).filter fun b => eqNoCase b.bidderAddress addr).map
      fun _ => v.phase

/-- The per-phase count the GROUP BY query yields for one phase. -/
def countPhase (vt : List ValidatorRow) (bt : List BidRow) (addr ph : String) : Nat :=
  (joinPhases vt bt addr).count ph

/-! ### The database trace of record_bids (transaction boundaries) -/

/-- One statement executed on the SQLite connection of record_bids. -/
inductive DbOp where
  | createBidTable
  | createValidatorTable
  | insBid (r : BidRow)
  | insValidator (r : ValidatorRow)
  | commitTx
  deriving Repr, DecidableEq

/-- The statements record_bids issues for one fetched bid. -/
def bidOps (b : Bid) : List DbOp :=
  .insBid (bidToRow b) ::
    (match b.validator with
     | none => []
     | some v => [.insValidator (validatorToRow b.id v)])

/-- The full statement trace of the store phase of record_bids: create the
two tables, insert every row of the batch, then the single conn.commit(). -/
def recordBidsTrace (l : List Bid) : List DbOp :=
  [.createBidTable, .createValidatorTable] ++ l.flatMap bidOps ++ [.commitTx]

/-- Connection state under SQLite transaction semantics: the committed
store other connections (readers) see, and the pending store of the open
implicit transaction. -/
structure TxState where
  committed : Store
  pending : Store
  deriving Repr, DecidableEq

/-- Effect of one statement: inserts change only the pending store; the
committed store changes only at commit.  (Re-creating existing tables is a
no-op.) -/
def execOp (s : TxState) : DbOp → TxState
  | .createBidTable => s
  | .createValidatorTable => s
  | .insBid r => { s with pending := { s.pending with bids := insertOrReplaceBid s.pending.bids r } }
  | .insValidator r => { s with pending := { s.pending with validators := insertOrReplaceValidator s.pending.validators r } }
  | .commitTx => { s with committed := s.pending }

/-- Execution of a statement prefix, starting from the prior committed
store s0. -/
def execOps (s0 : Store) (ops : List DbOp) : TxState :=
  ops.foldl execOp ⟨s0, s0⟩

/-! ### The interpolated SQL of the aggregate queries (claim C10) -/

/-- The SQL text built by an f-string of the shape
head ++ quote ++ bidder_address ++ quote ++ tail, as in get_our_bids,
get_active_bids and get_validators_phase. -/
def interpQuery (h t addr : String) : String :=
  h ++ "'" ++ addr ++ "'" ++ t

/-- SQLite lexing of a single-quoted string literal, starting just after
the opening quote: a doubled quote is an escaped quote, a single quote
ends the literal.  Returns the value of the literal and the rest of the input,
or none when the input ends inside the literal. -/
def lexQuoted : List Char → Option (List Char × List Char)
  | [] => none
  | c :: rest =>
    if c = '\'' then
      match rest with
      | r :: rs =>
        if r = '\'' then (lexQuoted rs).map fun p => ('\'' :: p.1, p.2)
        else some ([], r :: rs)
      | [] => some ([], [])
    else (lexQuoted rest).map fun p => (c :: p.1, p.2)

/-- Matching of an exact token sequence at the head of the input. -/
def dropExact : List Char → List Char → Option (List Char)
  | [], rest => some rest
  | _ :: _, [] => none
  | p :: ps, c :: cs => if p = c then dropExact ps cs else none

/-- Parse of an interpolated query against its template: the fixed head,
an opening quote, one string literal, then exactly the fixed tail.
Returns the bidder address the query compares against, or none when the
SQL is malformed (SQLite raises sqlite3.OperationalError). -/
def parseBidderQuery (h t : String) (q : String) : Option String :=
  match dropExact (h.data ++ ['\'']) q.data with
  | none => none
  | some rest =>
    match lexQuoted rest with
    | none => none
    | some (content, after) => if after = t.data then some (String.mk content) else none

/-- Template head of the get_our_bids query. -/
def ourBidsHead : String := "SELECT status, COUNT(*) FROM Bid WHERE bidderAddress = "

/-- Template tail of the get_our_bids query. -/
def ourBidsTail : String := " COLLATE NOCASE GROUP BY status"

/-- Template head of the local-store query of get_active_bids. -/
def activeBidsHead : String := "SELECT MIN(amount), MAX(amount) FROM Bid WHERE bidderAddress = "

/-- Template tail of the local-store query of get_active_bids; it contains
its own quoted literal for ACTIVE. -/
def activeBidsTail : String := " COLLATE NOCASE AND status = 'ACTIVE'"

/-- Template head of the get_validators_phase query. -/
def validatorsHead : String :=
  "SELECT Validator.phase, COUNT(*) FROM Validator JOIN Bid ON Bid.id = Validator.bid_id WHERE Bid.bidderAddress = "

/-- Template tail of the get_validators_phase query. -/
def validatorsTail : String := " COLLATE NOCASE GROUP BY Validator.phase"

/-- Execution of the get_our_bids query as the SQLite engine sees it: the
interpolated SQL text is parsed back; a malformed text raises
OperationalError, otherwise the GROUP BY runs against whatever address
text ended up inside the literal. -/
def runOurBidsQuery (addr : String) (t : List BidRow) : Except PyErr (List (String × Nat)) :=
  match parseBidderQuery ourBidsHead ourBidsTail (interpQuery ourBidsHead ourBidsTail addr) with
  | none => .error .operationalError
  | some a => .ok (groupByStatus (matchingBids t a))

/-- Membership in the fixed status set of get_our_bids. -/
def knownStatus (st : String) : Bool :=
  st == "WON" || st == "ACTIVE" || st == "CANCELLED"

/-- The row with its bidder address replaced by the given one. -/
def setRowAddr (r : BidRow) (addr : String) : BidRow :=
  { r with bidderAddress := addr }

/-- Two strings differ at most in ASCII letter case: same length, and the
characters at each position agree after ASCII lower-casing. -/
def differsOnlyInCase (s t : String) : Prop :=
  List.Forall₂ (fun a b => asciiLower a = asciiLower b) s.data t.data

/-! ### Concrete instances used by witnesses and counterexamples -/

/-- A cycle environment whose first bids-page request gets an HTTP 500. -/
def envHttp500 : CycleEnv :=
  ⟨fun _ => .response 500 none, .response 200 (some none), "0xA", 1⟩

/-- A bid with pubKeyIndex 0. -/
def pagedBid0 : Bid := ⟨"b0", "0xA", 0, "ACTIVE", "1", 5, 6, "t0", none⟩

/-- A bid with pubKeyIndex 1000, in the second pagination window. -/
def pagedBid1 : Bid := ⟨"b1", "0xA", 1000, "WON", "2", 7, 8, "t1", none⟩

/-- A two-page dataset without window gaps. -/
def pagedDb : List Bid := [pagedBid0, pagedBid1]

/-- A bid with pubKeyIndex 2000; together with pagedBid0 it leaves the
window [1000, 2000) empty. -/
def gapBid : Bid := ⟨"b2", "0xA", 2000, "ACTIVE", "3", 9, 9, "t2", none⟩

/-- A dataset whose second window is empty although a record follows it. -/
def gappedDb : List Bid := [pagedBid0, gapBid]

/-- A store holding one bid of the configured bidder, with status WON, so
that it has no ACTIVE rows. -/
def wonOnlyRows : List BidRow := [⟨"i1", "0xA", 0, "WON", "1", 1, 1, "t"⟩]

/-- A well-formed, nonempty response to the others-extrema query. -/
def extremaOkRemote : HttpResult ExtremaBody :=
  .response 200 (some (some ([⟨"0xB", "5"⟩], [⟨"0xB", "7"⟩])))

/-- Two ACTIVE rows of the configured bidder with amounts 9 and 10: the
byte-wise TEXT comparison puts "10" below "9". -/
def twoActiveRows : List BidRow :=
  [⟨"i1", "0xA", 0, "ACTIVE", "9", 1, 1, "t"⟩,
   ⟨"i2", "0xA", 1, "ACTIVE", "10", 1, 1, "t"⟩]

/-- A stored Bid row. -/
def rowOld : BidRow := ⟨"id1", "0xA", 3, "ACTIVE", "4", 1, 1, "t3"⟩

/-- The same primary key with every other field changed. -/
def rowNew : BidRow := ⟨"id1", "0xB", 4, "WON", "5", 2, 2, "t4"⟩

/-- A stored Validator row. -/
def valRow : ValidatorRow := ⟨"id1", "LIVE", "pk", 1, 1, "t5"⟩

/-- A fetched bid carrying a nested validator payload. -/
def batchBid : Bid :=
  ⟨"id9", "0xA", 42, "WON", "6", 3, 3, "t6", some ⟨"v9", "LIVE", "pk9", 3, 3, "t7"⟩⟩

/-- A row whose bidder address differs from "0xAB" only in letter case. -/
def caseRow : BidRow := ⟨"id7", "0xaB", 8, "ACTIVE", "2", 1, 1, "t8"⟩

/-! ## Theorems -/

/-- Claim C5, counterexample: a timed-out request raises inside
requests.post, before any health-gauge write, so this api_post_request
call does not perform exactly one health-gauge write — refuting that the
gauge is set to 0 for every transport failure including timeouts. -/
theorem api_post_request_timeout_no_health_write :
    ((api_post_request (HttpResult.timeout : HttpResult Unit)).healthWrites).length ≠ 1 := by
  decide

/-- Claim C5 (amended): api_post_request performs exactly one health-gauge
write per completed HTTP response — 0 for any status other than 200 (the
code tests status_code != 200, so even another 2xx status such as 201
gets 0 and an empty return), 1 for status 200 exactly — but the 1 is
written before the body is parsed, so a 200 response with a malformed
body leaves the gauge at 1 and raises, and a timeout raises with no
health write at all. -/
theorem api_post_request_health_characterization (α : Type) (s : Nat) (b : Option α) :
    api_post_request (HttpResult.timeout : HttpResult α) = ⟨[], .error .timeoutErr⟩ ∧
    (s ≠ 200 → api_post_request (HttpResult.response s b) = ⟨[0], .ok none⟩) ∧
    api_post_request (HttpResult.response 200 (none : Option α)) = ⟨[1], .error .jsonDecodeErr⟩ ∧
    (∀ j : α, api_post_request (HttpResult.response 200 (some j)) = ⟨[1], .ok (some j)⟩) := by
  refine ⟨rfl, ?_, by simp [api_post_request], fun j => by simp [api_post_request]⟩
  intro hs
  simp [api_post_request, hs]

/-- Witness for the C5 theorem at status 500. -/
theorem api_post_request_health_characterization_witness :
    (500 ≠ 200) ∧
    api_post_request (HttpResult.response 500 (none : Option Unit)) = ⟨[0], .ok none⟩ :=
  ⟨by decide, (api_post_request_health_characterization Unit 500 none).2.1 (by decide)⟩

/-- Claim C6 (confirmed): INSERT OR REPLACE keyed by the primary key is
idempotent (for Bid and Validator rows), and upserting a Bid row with an
already-stored id fully replaces the prior row, so the status-count
aggregate sees only the new status plus the rows with other ids. -/
theorem upsert_idempotent_last_write_wins (t : List BidRow) (vt : List ValidatorRow)
    (b b2 : BidRow) (v : ValidatorRow) (addr st : String) (hid : b.id = b2.id) :
    insertOrReplaceBid (insertOrReplaceBid t b) b = insertOrReplaceBid t b ∧
    insertOrReplaceValidator (insertOrReplaceValidator vt v) v = insertOrReplaceValidator vt v ∧
    insertOrReplaceBid (insertOrReplaceBid t b) b2 = insertOrReplaceBid t b2 ∧
    countStatus (insertOrReplaceBid t b2) addr st =
      (if eqNoCase b2.bidderAddress addr = true ∧ b2.status = st then 1 else 0) +
        countStatus (t.filter fun r => r.id != b2.id) addr st := by
  refine ⟨?_, ?_, ?_, ?_⟩
  · simp [insertOrReplaceBid, List.filter_cons, List.filter_filter]
  · simp [insertOrReplaceValidator, List.filter_cons, List.filter_filter]
  · simp [insertOrReplaceBid, List.filter_cons, List.filter_filter, hid]
  · simp only [countStatus, matchingBids, insertOrReplaceBid, List.filter_cons]
    by_cases h1 : eqNoCase b2.bidderAddress addr
    · simp [h1, List.countP_cons]
      by_cases h2 : b2.status = st
      · simp [h2, Nat.add_comm]
      · simp [h2]
    · simp [h1]

/-- Witness for the C6 theorem: rowOld and rowNew share the primary key
id1 but differ in every other field. -/
theorem upsert_idempotent_last_write_wins_witness :
    rowOld.id = rowNew.id ∧
    (insertOrReplaceBid (insertOrReplaceBid [] rowOld) rowOld = insertOrReplaceBid [] rowOld ∧
     insertOrReplaceValidator (insertOrReplaceValidator [] valRow) valRow =
       insertOrReplaceValidator [] valRow ∧
     insertOrReplaceBid (insertOrReplaceBid [] rowOld) rowNew = insertOrReplaceBid [] rowNew ∧
     countStatus (insertOrReplaceBid [] rowNew) "0xA" "WON" =
       (if eqNoCase rowNew.bidderAddress "0xA" = true ∧ rowNew.status = "WON" then 1 else 0) +
         countStatus (([] : List BidRow).filter fun r => r.id != rowNew.id) "0xA" "WON") :=
  ⟨rfl, upsert_idempotent_last_write_wins [] [] rowOld rowNew valRow "0xA" "WON" rfl⟩

/-- Claim C1, counterexample: with an HTTP 500 on the first bids-page
request, api_post_request returns None, the membership test
`"data" not in result` in record_bids raises a TypeError, and — there
being no try/except anywhere in do() — the exception propagates out of
the cycle and terminates the process instead of being caught and logged. -/
theorem do_cycle_crashes_on_http_500 :
    do_cycle envHttp500 emptyStore = .error .typeError := rfl

/-- Claim C1 (amended): errors during a cycle are NOT caught at the cycle
boundary: whenever the first bids-page request yields any non-2xx
response, the cycle raises a TypeError that propagates out of the
scheduler loop, so a single transient remote failure terminates the
process. -/
theorem do_cycle_error_not_caught (env : CycleEnv) (st : Store) (s : Nat) (b : Option BidsPage)
    (hremote : env.bidsRemote 0 = HttpResult.response s b) (hs : s ≠ 200)
    (hfuel : 1 ≤ env.fuel) :
    do_cycle env st = .error .typeError := by
  obtain ⟨fuel, hf⟩ : ∃ f, env.fuel = f + 1 := ⟨env.fuel - 1, by omega⟩
  unfold do_cycle record_bids fetchSortedBids
  rw [hf]
  simp [fetchBidsLoop, hremote, api_post_request, hs, Except.map]

/-- Witness for the C1 theorem on the concrete 500-environment. -/
theorem do_cycle_error_not_caught_witness :
    envHttp500.bidsRemote 0 = HttpResult.response 500 none ∧ (500 ≠ 200) ∧ 1 ≤ envHttp500.fuel ∧
    do_cycle envHttp500 emptyStore = .error .typeError :=
  ⟨rfl, by decide, by decide,
   do_cycle_error_not_caught envHttp500 emptyStore 500 none rfl (by decide) (by decide)⟩

/-! ### Helper lemmas: the GROUP BY pipeline of get_our_bids -/

theorem mem_distinctKeys (a : String) (l : List String) : a ∈ distinctKeys l ↔ a ∈ l := by
  induction l with
  | nil => simp [distinctKeys]
  | cons s rest ih =>
    simp only [distinctKeys, List.mem_cons, List.mem_filter]
    constructor
    · rintro (rfl | ⟨h, _⟩)
      · exact Or.inl rfl
      · exact Or.inr (ih.mp h)
    · rintro (rfl | h)
      · exact Or.inl rfl
      · by_cases hs : a = s
        · exact Or.inl hs
        · exact Or.inr ⟨ih.mpr h, by simp [hs]⟩

theorem distinctKeys_nodup (l : List String) : (distinctKeys l).Nodup := by
  induction l with
  | nil => simp [distinctKeys]
  | cons s rest ih =>
    simp only [distinctKeys]
    refine List.nodup_cons.mpr ⟨?_, ih.filter _⟩
    intro hmem
    have h2 := (List.mem_filter.mp hmem).2
    simp at h2

theorem statusFold_spec (rows : List (String × Nat)) :
    ∀ (sc : StatusCounts) (logs : List String),
      (rows.foldl statusStep (sc, logs)).1.won =
          rows.foldl (fun a r => if r.1 = "WON" then r.2 else a) sc.won ∧
      (rows.foldl statusStep (sc, logs)).1.active =
          rows.foldl (fun a r => if r.1 = "ACTIVE" then r.2 else a) sc.active ∧
      (rows.foldl statusStep (sc, logs)).1.cancelled =
          rows.foldl (fun a r => if r.1 = "CANCELLED" then r.2 else a) sc.cancelled ∧
      (rows.foldl statusStep (sc, logs)).2 =
          logs ++ (rows.filter fun r => !knownStatus r.1).map fun r => "Unknown Bid Status: " ++ r.1 := by
  induction rows with
  | nil => intro sc logs; simp
  | cons r rest ih =>
    intro sc logs
    simp only [List.foldl_cons, statusStep, List.filter_cons]
    by_cases h1 : r.1 = "WON"
    · simp [h1, ih, knownStatus]
    · by_cases h2 : r.1 = "ACTIVE"
      · simp [h1, h2, ih, knownStatus]
      · by_cases h3 : r.1 = "CANCELLED"
        · simp [h1, h2, h3, ih, knownStatus]
        · simp [h1, h2, h3, ih, knownStatus]

theorem foldl_select_key (key : String) (f : String → Nat) :
    ∀ (keys : List String) (init : Nat), keys.Nodup →
      ((keys.map fun k => (k, f k)).foldl (fun a r => if r.1 = key then r.2 else a) init) =
        if key ∈ keys then f key else init := by
  intro keys
  induction keys with
  | nil => intro init _; simp
  | cons k ks ih =>
    intro init hnd
    simp only [List.map_cons, List.foldl_cons]
    have hnd2 := (List.nodup_cons.mp hnd).2
    by_cases hk : k = key
    · subst hk
      rw [if_pos rfl, ih _ hnd2]
      have hnotin : k ∉ ks := (List.nodup_cons.mp hnd).1
      simp [hnotin]
    · rw [if_neg hk, ih _ hnd2]
      have hk2 : ¬ key = k := fun h => hk h.symm
      simp [List.mem_cons, hk2]

theorem groupCount_fold_select (keys : List String) (key : String) :
    (groupCount keys).foldl (fun a r => if r.1 = key then r.2 else a) 0 = keys.count key := by
  unfold groupCount
  rw [foldl_select_key key (fun k => keys.count k) (distinctKeys keys) 0 (distinctKeys_nodup keys)]
  by_cases h : key ∈ distinctKeys keys
  · simp [h]
  · rw [if_neg h]
    have h2 : key ∉ keys := fun hmem => h ((mem_distinctKeys key keys).mpr hmem)
    exact (List.count_eq_zero.mpr h2).symm

theorem count_map_status (m : List BidRow) (st : String) :
    ((m.map fun r => r.status).count st) = m.countP fun r => r.status == st := by
  induction m with
  | nil => rfl
  | cons r rest ih => simp [List.count_cons, List.countP_cons, ih]

/-- Claim C7 (confirmed): every run of get_our_bids writes all three
status-count gauges for the configured bidder — a status with no matching
rows is written as exactly 0 (zero-fill, never skipped) — and statuses
outside the known set only produce log lines, never gauge writes. -/
theorem get_our_bids_zero_fill_and_unknown (t : List BidRow) (addr : String) :
    (get_our_bids t addr).1 =
      [⟨"etherfi_bids_winning", [("bidder_address", addr)], .vNat (countStatus t addr "WON")⟩,
       ⟨"etherfi_bids_active", [("bidder_address", addr)], .vNat (countStatus t addr "ACTIVE")⟩,
       ⟨"etherfi_bids_cancelled", [("bidder_address", addr)], .vNat (countStatus t addr "CANCELLED")⟩] ∧
    (get_our_bids t addr).2 =
      ((groupByStatus (matchingBids t addr)).filter fun r => !knownStatus r.1).map
        fun r => "Unknown Bid Status: " ++ r.1 := by
  obtain ⟨hw, ha, hc, hl⟩ :=
    statusFold_spec (groupByStatus (matchingBids t addr)) ⟨0, 0, 0⟩ []
  have ew : (((groupByStatus (matchingBids t addr)).foldl statusStep (⟨0, 0, 0⟩, [])).1).won =
      countStatus t addr "WON" := by
    rw [hw]
    rw [show groupByStatus (matchingBids t addr) =
      groupCount ((matchingBids t addr).map fun r => r.status) from rfl]
    rw [groupCount_fold_select]
    exact count_map_status _ _
  have ea : (((groupByStatus (matchingBids t addr)).foldl statusStep (⟨0, 0, 0⟩, [])).1).active =
      countStatus t addr "ACTIVE" := by
    rw [ha]
    rw [show groupByStatus (matchingBids t addr) =
      groupCount ((matchingBids t addr).map fun r => r.status) from rfl]
    rw [groupCount_fold_select]
    exact count_map_status _ _
  have ec : (((groupByStatus (matchingBids t addr)).foldl statusStep (⟨0, 0, 0⟩, [])).1).cancelled =
      countStatus t addr "CANCELLED" := by
    rw [hc]
    rw [show groupByStatus (matchingBids t addr) =
      groupCount ((matchingBids t addr).map fun r => r.status) from rfl]
    rw [groupCount_fold_select]
    exact count_map_status _ _
  constructor
  · simp only [get_our_bids, ew, ea, ec]
  · simp only [get_our_bids, hl, List.nil_append]

/-! ### Helper lemmas: the NOCASE comparison -/

theorem eqNoCase_refl (s : String) : eqNoCase s s = true := by
  simp [eqNoCase]

theorem map_asciiLower_eq_of_forall2 {as bs : List Char}
    (h : List.Forall₂ (fun a b => asciiLower a = asciiLower b) as bs) :
    as.map asciiLower = bs.map asciiLower := by
  induction h with
  | nil => rfl
  | cons hab _ ih => simp [List.map_cons, hab, ih]

theorem eqNoCase_of_differsOnlyInCase {s t : String} (h : differsOnlyInCase s t) :
    eqNoCase s t = true := by
  simp only [eqNoCase, beq_iff_eq]
  exact map_asciiLower_eq_of_forall2 h

/-- Claim C9 (confirmed): a stored bid row whose bidder address differs
from the configured address only in ASCII letter case enters the
status-count, active-amount (min/max input) and validator-phase-count
aggregates exactly as if the cases matched: each aggregate equals the one
computed with the address replaced by the configured spelling, and the row
itself is counted. -/
theorem case_insensitive_aggregates (bt : List BidRow) (vt : List ValidatorRow)
    (r : BidRow) (addr st ph : String) (h : differsOnlyInCase r.bidderAddress addr) :
    countStatus (r :: bt) addr st = countStatus (setRowAddr r addr :: bt) addr st ∧
    activeAmounts (r :: bt) addr = activeAmounts (setRowAddr r addr :: bt) addr ∧
    countPhase vt (r :: bt) addr ph = countPhase vt (setRowAddr r addr :: bt) addr ph ∧
    countStatus (r :: bt) addr st = countStatus bt addr st + (if r.status = st then 1 else 0) := by
  have h1 : eqNoCase r.bidderAddress addr = true := eqNoCase_of_differsOnlyInCase h
  have h2 : eqNoCase (setRowAddr r addr).bidderAddress addr = true := eqNoCase_refl addr
  have hj : joinPhases vt (r :: bt) addr = joinPhases vt (setRowAddr r addr :: bt) addr := by
    induction vt with
    | nil => rfl
    | cons v vs ih =>
      have hinner : (((r :: bt).filter fun b => b.id == v.bid_id).filter fun b =>
          eqNoCase b.bidderAddress addr).map (fun _ => v.phase) =
          (((setRowAddr r addr :: bt).filter fun b => b.id == v.bid_id).filter fun b =>
          eqNoCase b.bidderAddress addr).map (fun _ => v.phase) := by
        by_cases hid : (r.id == v.bid_id) = true
        · simp [List.filter_cons, setRowAddr, hid, h1, h2, eqNoCase_refl, List.replicate_succ]
        · simp [List.filter_cons, setRowAddr, hid]
      simp only [joinPhases, List.flatMap_cons] at ih ⊢
      rw [hinner, ih]
  refine ⟨?_, ?_, ?_, ?_⟩
  · simp [countStatus, matchingBids, List.filter_cons, h1, h2, setRowAddr, eqNoCase_refl,
      List.countP_cons]
  · simp only [activeAmounts, List.filter_cons, h1, h2, setRowAddr, eqNoCase_refl]
    split <;> simp
  · unfold countPhase
    rw [hj]
  · simp [countStatus, matchingBids, List.filter_cons, h1, List.countP_cons]

/-- Witness for the C9 theorem: the stored address 0xaB differs from the
configured address 0xAB only in case. -/
theorem case_insensitive_aggregates_witness :
    differsOnlyInCase caseRow.bidderAddress "0xAB" ∧
    countStatus [caseRow] "0xAB" "ACTIVE" =
      countStatus [] "0xAB" "ACTIVE" + (if caseRow.status = "ACTIVE" then 1 else 0) := by
  have hd : differsOnlyInCase caseRow.bidderAddress "0xAB" := by
    simp only [differsOnlyInCase, caseRow, List.forall₂_cons]
    refine ⟨by decide, by decide, by decide, by decide, List.Forall₂.nil⟩
  exact ⟨hd, (case_insensitive_aggregates [] [] caseRow "0xAB" "ACTIVE" "LIVE" hd).2.2.2⟩

/-! ### Helper lemmas: the transaction trace of record_bids -/

theorem commit_not_mem_bidOps (b : Bid) : DbOp.commitTx ∉ bidOps b := by
  unfold bidOps
  cases b.validator <;> simp

theorem commit_not_mem_flat (l : List Bid) : DbOp.commitTx ∉ l.flatMap bidOps := by
  intro h
  obtain ⟨b, _, hb⟩ := List.mem_flatMap.mp h
  exact commit_not_mem_bidOps b hb

theorem committed_of_no_commit : ∀ (ops : List DbOp) (s : TxState),
    DbOp.commitTx ∉ ops → (ops.foldl execOp s).committed = s.committed := by
  intro ops
  induction ops with
  | nil => intro s _; rfl
  | cons op rest ih =>
    intro s hmem
    have h1 : op ≠ DbOp.commitTx := fun h => hmem (h ▸ List.mem_cons_self op rest)
    rw [List.foldl_cons, ih (execOp s op) (fun h => hmem (List.mem_cons_of_mem _ h))]
    cases op with
    | commitTx => exact absurd rfl h1
    | createBidTable => rfl
    | createValidatorTable => rfl
    | insBid r => rfl
    | insValidator r => rfl

theorem flat_fold_pending : ∀ (l : List Bid) (s : TxState),
    (l.flatMap bidOps).foldl execOp s = ⟨s.committed, applyBatch s.pending l⟩ := by
  intro l
  induction l with
  | nil => intro s; simp [applyBatch]
  | cons b bs ih =>
    intro s
    have hb : (bidOps b).foldl execOp s = ⟨s.committed, applyBid s.pending b⟩ := by
      unfold bidOps applyBid
      cases b.validator <;> simp [execOp]
    rw [List.flatMap_cons, List.foldl_append, hb, ih]
    rfl

/-- Claim C8 (confirmed): the store phase of record_bids executes every
Bid and Validator insert of the batch inside one implicit transaction with
a single commit as its very last statement; stopping at any earlier point
leaves the committed store the readers see unchanged, and executing the
whole trace commits exactly the batch of upserts. -/
theorem record_bids_single_transaction (l : List Bid) (s0 : Store) (k : Nat)
    (hk : k < (recordBidsTrace l).length) :
    (recordBidsTrace l).count DbOp.commitTx = 1 ∧
    (recordBidsTrace l).getLast? = some DbOp.commitTx ∧
    (execOps s0 ((recordBidsTrace l).take k)).committed = s0 ∧
    (execOps s0 (recordBidsTrace l)).committed = applyBatch s0 l := by
  have hA : DbOp.commitTx ∉
      ([DbOp.createBidTable, DbOp.createValidatorTable] ++ l.flatMap bidOps) := by
    intro h
    rcases List.mem_append.mp h with h1 | h2
    · simp at h1
    · exact commit_not_mem_flat l h2
  have hlen : k ≤ ([DbOp.createBidTable, DbOp.createValidatorTable] ++ l.flatMap bidOps).length := by
    have h2 : (recordBidsTrace l).length =
        ([DbOp.createBidTable, DbOp.createValidatorTable] ++ l.flatMap bidOps).length + 1 := by
      unfold recordBidsTrace
      simp
    omega
  refine ⟨?_, ?_, ?_, ?_⟩
  · unfold recordBidsTrace
    rw [List.count_append, List.count_eq_zero.mpr hA]
    simp
  · unfold recordBidsTrace
    exact List.getLast?_concat _
  · unfold execOps
    unfold recordBidsTrace
    rw [List.take_append_of_le_length hlen]
    exact committed_of_no_commit _ _
      (fun h => hA (List.take_subset k _ h))
  · unfold execOps recordBidsTrace
    rw [List.foldl_append, List.foldl_append]
    rw [show ([DbOp.createBidTable, DbOp.createValidatorTable].foldl execOp
      (⟨s0, s0⟩ : TxState)) = ⟨s0, s0⟩ from rfl]
    rw [flat_fold_pending]
    rfl

/-- Witness for the C8 theorem: a one-bid batch carrying a validator,
truncated after its Bid insert. -/
theorem record_bids_single_transaction_witness :
    3 < (recordBidsTrace [batchBid]).length ∧
    ((recordBidsTrace [batchBid]).count DbOp.commitTx = 1 ∧
     (recordBidsTrace [batchBid]).getLast? = some DbOp.commitTx ∧
     (execOps emptyStore ((recordBidsTrace [batchBid]).take 3)).committed = emptyStore ∧
     (execOps emptyStore (recordBidsTrace [batchBid])).committed =
       applyBatch emptyStore [batchBid]) :=
  ⟨by decide, record_bids_single_transaction [batchBid] emptyStore 3 (by decide)⟩

/-! ### Helper lemmas: parsing the interpolated SQL -/

theorem dropExact_append : ∀ (p rest : List Char), dropExact p (p ++ rest) = some rest := by
  intro p
  induction p with
  | nil => intro rest; rfl
  | cons c cs ih => intro rest; simp [dropExact, ih]

theorem lexQuoted_no_escape : ∀ (content : List Char), '\'' ∉ content →
    ∀ (rest : List Char), rest.head? ≠ some '\'' →
      lexQuoted (content ++ '\'' :: rest) = some (content, rest) := by
  intro content
  induction content with
  | nil =>
    intro _ rest hrest
    cases rest with
    | nil => rfl
    | cons r rs =>
      have hr : ¬ r = '\'' := fun h => hrest (by simp [h])
      rw [lexQuoted.eq_def]
      simp [hr]
  | cons c cs ih =>
    intro hq rest hrest
    have hc : ¬ c = '\'' := fun h => hq (h ▸ List.mem_cons_self c cs)
    have hcs : '\'' ∉ cs := fun h => hq (List.mem_cons_of_mem c h)
    rw [List.cons_append, lexQuoted.eq_def]
    simp [hc, ih hcs rest hrest]

theorem parse_interpQuery (h t addr : String) (hq : '\'' ∉ addr.data)
    (ht : t.data.head? ≠ some '\'') :
    parseBidderQuery h t (interpQuery h t addr) = some addr := by
  unfold parseBidderQuery interpQuery
  have hdata : (h ++ "'" ++ addr ++ "'" ++ t).data
      = (h.data ++ ['\'']) ++ (addr.data ++ '\'' :: t.data) := by
    have hq1 : ("'" : String).data = ['\''] := rfl
    simp [String.data_append, hq1]
  rw [hdata, dropExact_append]
  have hlex := lexQuoted_no_escape addr.data hq t.data ht
  simp [hlex]

/-- Claim C10 (confirmed): the three local-store queries interpolate the
configured bidder address textually into their SQL.  For every address
without a single quote the constructed SQL parses back to exactly the
intended query over exactly that address; for the address consisting of a
single quote the SQL of each of the three queries is malformed, and
executing the get_our_bids query then raises an OperationalError instead
of returning counts. -/
theorem interpolated_queries_injection (addr : String) (t : List BidRow)
    (hq : '\'' ∉ addr.data) :
    parseBidderQuery ourBidsHead ourBidsTail (interpQuery ourBidsHead ourBidsTail addr)
      = some addr ∧
    parseBidderQuery activeBidsHead activeBidsTail
      (interpQuery activeBidsHead activeBidsTail addr) = some addr ∧
    parseBidderQuery validatorsHead validatorsTail
      (interpQuery validatorsHead validatorsTail addr) = some addr ∧
    runOurBidsQuery addr t = .ok (groupByStatus (matchingBids t addr)) ∧
    parseBidderQuery ourBidsHead ourBidsTail (interpQuery ourBidsHead ourBidsTail "'")
      = none ∧
    parseBidderQuery activeBidsHead activeBidsTail
      (interpQuery activeBidsHead activeBidsTail "'") = none ∧
    parseBidderQuery validatorsHead validatorsTail
      (interpQuery validatorsHead validatorsTail "'") = none ∧
    (∀ t2 : List BidRow, runOurBidsQuery "'" t2 = .error .operationalError) := by
  have h1 := parse_interpQuery ourBidsHead ourBidsTail addr hq (by decide)
  have h2 := parse_interpQuery activeBidsHead activeBidsTail addr hq (by decide)
  have h3 := parse_interpQuery validatorsHead validatorsTail addr hq (by decide)
  refine ⟨h1, h2, h3, ?_, by decide, by decide, by decide, ?_⟩
  · unfold runOurBidsQuery
    rw [h1]
  · intro t2
    unfold runOurBidsQuery
    rw [show parseBidderQuery ourBidsHead ourBidsTail
      (interpQuery ourBidsHead ourBidsTail "'") = none from by decide]

/-- Witness for the C10 theorem at the quote-free address 0xAb. -/
theorem interpolated_queries_injection_witness :
    ('\'' ∉ ("0xAb" : String).data) ∧
    runOurBidsQuery "0xAb" [] = .ok (groupByStatus (matchingBids [] "0xAb")) :=
  ⟨by decide, (interpolated_queries_injection "0xAb" [] (by decide)).2.2.2.1⟩

/-! ### Helper lemmas: the byte-wise TEXT order and MIN/MAX -/

theorem strLe_refl (a : List Char) : strLe a a = true := by
  induction a with
  | nil => rfl
  | cons c cs ih => simp [strLe, ih]

theorem strLe_total (a : List Char) : ∀ b, strLe a b = true ∨ strLe b a = true := by
  induction a with
  | nil => intro b; left; rfl
  | cons c cs ih =>
    intro b
    cases b with
    | nil => right; rfl
    | cons d ds =>
      by_cases h1 : c.toNat < d.toNat
      · left; simp [strLe, h1]
      · by_cases h2 : d.toNat < c.toNat
        · right; simp [strLe, h2]
        · rcases ih ds with h | h
          · left; simp [strLe, h1, h2, h]
          · right; simp [strLe, h1, h2, h]

theorem strLe_trans : ∀ (a b c : List Char),
    strLe a b = true → strLe b c = true → strLe a c = true := by
  intro a
  induction a with
  | nil => intro b c _ _; rfl
  | cons x xs ih =>
    intro b c hab hbc
    cases b with
    | nil => simp [strLe] at hab
    | cons y ys =>
      cases c with
      | nil => simp [strLe] at hbc
      | cons z zs =>
        simp only [strLe] at hab hbc ⊢
        split_ifs at hab hbc ⊢ <;>
          first
            | rfl
            | exact Bool.noConfusion hab
            | exact Bool.noConfusion hbc
            | omega
            | exact ih ys zs hab hbc

theorem textMin_fold (l : List String) : ∀ (m : String),
    ∃ m2, (l.foldl (fun acc s =>
        match acc with
        | none => some s
        | some m3 => if strLe m3.data s.data then some m3 else some s) (some m)) = some m2 ∧
      (m2 = m ∨ m2 ∈ l) ∧ strLe m2.data m.data = true ∧
      ∀ a ∈ l, strLe m2.data a.data = true := by
  induction l with
  | nil => intro m; exact ⟨m, rfl, Or.inl rfl, strLe_refl m.data, by simp⟩
  | cons s ss ih =>
    intro m
    by_cases hms : strLe m.data s.data = true
    · obtain ⟨m2, heq, hmem, hle, hall⟩ := ih m
      refine ⟨m2, ?_, ?_, hle, ?_⟩
      · simpa [List.foldl_cons, hms] using heq
      · rcases hmem with rfl | hmem
        · exact Or.inl rfl
        · exact Or.inr (List.mem_cons_of_mem s hmem)
      · intro a ha
        rcases List.mem_cons.mp ha with rfl | ha2
        · exact strLe_trans _ _ _ hle hms
        · exact hall a ha2
    · obtain ⟨m2, heq, hmem, hle, hall⟩ := ih s
      have hsm : strLe s.data m.data = true := (strLe_total s.data m.data).resolve_right hms
      refine ⟨m2, ?_, ?_, ?_, ?_⟩
      · simpa [List.foldl_cons, hms] using heq
      · rcases hmem with rfl | hmem
        · exact Or.inr (List.mem_cons_self m2 ss)
        · exact Or.inr (List.mem_cons_of_mem s hmem)
      · exact strLe_trans _ _ _ hle hsm
      · intro a ha
        rcases List.mem_cons.mp ha with rfl | ha2
        · exact hle
        · exact hall a ha2

theorem textMin_spec (l : List String) (hne : l ≠ []) :
    ∃ m, textMin l = some m ∧ m ∈ l ∧ ∀ a ∈ l, strLe m.data a.data = true := by
  cases l with
  | nil => exact absurd rfl hne
  | cons s ss =>
    obtain ⟨m2, heq, hmem, hle, hall⟩ := textMin_fold ss s
    refine ⟨m2, ?_, ?_, ?_⟩
    · simpa [textMin, List.foldl_cons] using heq
    · rcases hmem with rfl | hmem
      · exact List.mem_cons_self m2 ss
      · exact List.mem_cons_of_mem s hmem
    · intro a ha
      rcases List.mem_cons.mp ha with rfl | ha2
      · exact hle
      · exact hall a ha2

theorem textMax_fold (l : List String) : ∀ (m : String),
    ∃ m2, (l.foldl (fun acc s =>
        match acc with
        | none => some s
        | some m3 => if strLe s.data m3.data then some m3 else some s) (some m)) = some m2 ∧
      (m2 = m ∨ m2 ∈ l) ∧ strLe m.data m2.data = true ∧
      ∀ a ∈ l, strLe a.data m2.data = true := by
  induction l with
  | nil => intro m; exact ⟨m, rfl, Or.inl rfl, strLe_refl m.data, by simp⟩
  | cons s ss ih =>
    intro m
    by_cases hms : strLe s.data m.data = true
    · obtain ⟨m2, heq, hmem, hle, hall⟩ := ih m
      refine ⟨m2, ?_, ?_, hle, ?_⟩
      · simpa [List.foldl_cons, hms] using heq
      · rcases hmem with rfl | hmem
        · exact Or.inl rfl
        · exact Or.inr (List.mem_cons_of_mem s hmem)
      · intro a ha
        rcases List.mem_cons.mp ha with rfl | ha2
        · exact strLe_trans _ _ _ hms hle
        · exact hall a ha2
    · obtain ⟨m2, heq, hmem, hle, hall⟩ := ih s
      have hsm : strLe m.data s.data = true := (strLe_total m.data s.data).resolve_right hms
      refine ⟨m2, ?_, ?_, ?_, ?_⟩
      · simpa [List.foldl_cons, hms] using heq
      · rcases hmem with rfl | hmem
        · exact Or.inr (List.mem_cons_self m2 ss)
        · exact Or.inr (List.mem_cons_of_mem s hmem)
      · exact strLe_trans _ _ _ hsm hle
      · intro a ha
        rcases List.mem_cons.mp ha with rfl | ha2
        · exact hle
        · exact hall a ha2

theorem textMax_spec (l : List String) (hne : l ≠ []) :
    ∃ m, textMax l = some m ∧ m ∈ l ∧ ∀ a ∈ l, strLe a.data m.data = true := by
  cases l with
  | nil => exact absurd rfl hne
  | cons s ss =>
    obtain ⟨m2, heq, hmem, hle, hall⟩ := textMax_fold ss s
    refine ⟨m2, ?_, ?_, ?_⟩
    · simpa [textMax, List.foldl_cons] using heq
    · rcases hmem with rfl | hmem
      · exact List.mem_cons_self m2 ss
      · exact List.mem_cons_of_mem s hmem
    · intro a ha
      rcases List.mem_cons.mp ha with rfl | ha2
      · exact hle
      · exact hall a ha2

/-- Claim C4, counterexample: with stored ACTIVE amounts "9" and "10" the
query publishes MIN = "10" and MAX = "9" (byte-wise TEXT comparison),
while the numeric magnitudes are 9 and 10 — so the published minimum is
the numeric value 10, not the numeric minimum 9. -/
theorem sqlMinMax_not_numeric :
    sqlMinMaxAmount twoActiveRows "0xA" = (some "10", some "9") ∧
    (activeAmounts twoActiveRows "0xA").map (fun s => natOfDigits s.data)
      = [some 9, some 10] ∧
    natOfDigits ("10" : String).data = some 10 ∧
    ((10 : Nat) ≠ 9) := by
  refine ⟨?_, by decide, by decide, by decide⟩
  decide

/-- Claim C4 (amended): the min/max the local-store query publishes are
the byte-wise (lexicographic TEXT collation) extrema of the stored amount
strings of the matching ACTIVE rows — not their numeric-magnitude
extrema. -/
theorem sqlMinMax_byte_wise_extrema (t : List BidRow) (addr : String)
    (hne : activeAmounts t addr ≠ []) :
    ∃ m mx, sqlMinMaxAmount t addr = (some m, some mx) ∧
      m ∈ activeAmounts t addr ∧ mx ∈ activeAmounts t addr ∧
      ∀ a ∈ activeAmounts t addr,
        strLe m.data a.data = true ∧ strLe a.data mx.data = true := by
  obtain ⟨m, hm, hmm, hma⟩ := textMin_spec _ hne
  obtain ⟨mx, hx, hxm, hxa⟩ := textMax_spec _ hne
  exact ⟨m, mx, by simp [sqlMinMaxAmount, hm, hx], hmm, hxm,
    fun a ha => ⟨hma a ha, hxa a ha⟩⟩

/-- Witness for the C4 theorem on the two-row store. -/
theorem sqlMinMax_byte_wise_extrema_witness :
    (activeAmounts twoActiveRows "0xA" ≠ []) ∧
    (∃ m mx, sqlMinMaxAmount twoActiveRows "0xA" = (some m, some mx) ∧
      m ∈ activeAmounts twoActiveRows "0xA" ∧ mx ∈ activeAmounts twoActiveRows "0xA" ∧
      ∀ a ∈ activeAmounts twoActiveRows "0xA",
        strLe m.data a.data = true ∧ strLe a.data mx.data = true) :=
  ⟨by decide, sqlMinMax_byte_wise_extrema twoActiveRows "0xA" (by decide)⟩

/-- Claim C3 (code_bug): with zero ACTIVE rows for the configured bidder,
the aggregate SELECT returns the single row (NULL, NULL); the code guards
it with `if row:`, which is always truthy for this query, so the intended
zero-default branch is dead code, and Gauge.set(None) raises a TypeError:
the own min/max gauges are not written as 0 — they are not written at all
and the cycle dies.  (They are also skipped entirely whenever the remote
extrema response fails its shape check, via the early return.) -/
theorem get_active_bids_crashes_without_active_rows :
    activeAmounts wonOnlyRows "0xA" = [] ∧
    sqlMinMaxAmount wonOnlyRows "0xA" = (none, none) ∧
    get_active_bids extremaOkRemote wonOnlyRows "0xA" =
      ([healthWrite 1,
        ⟨"etherfi_bids_amount_min", [("bidder_address", "0xB"), ("status", "active")], .vStr "5"⟩,
        ⟨"etherfi_bids_amount_max", [("bidder_address", "0xB"), ("status", "active")], .vStr "7"⟩],
       some .typeError) := by
  refine ⟨by decide, by decide, ?_⟩
  decide

/-! ### Helper lemmas: pagination of record_bids -/

theorem mem_le_maxIdx : ∀ (db : List Bid) (b : Bid), b ∈ db → b.pubKeyIndex ≤ maxIdx db := by
  intro db
  induction db with
  | nil => intro b h; simp at h
  | cons c cs ih =>
    intro b h
    have hm : maxIdx (c :: cs) = max c.pubKeyIndex (maxIdx cs) := rfl
    rcases List.mem_cons.mp h with h1 | h2
    · rw [hm, h1]; exact Nat.le_max_left _ _
    · rw [hm]; exact le_trans (ih b h2) (Nat.le_max_right _ _)

theorem filter_atLeast_eq_nil (db : List Bid) (s : Nat)
    (h : ∀ b ∈ db, ¬ (s ≤ b.pubKeyIndex)) :
    (db.filter fun b => decide (s ≤ b.pubKeyIndex)) = [] :=
  List.filter_eq_nil_iff.mpr (by intro b hb; simpa using h b hb)

theorem window_split_perm (db : List Bid) (s : Nat) :
    ((window db s) ++ (db.filter fun b => decide (s + 1000 ≤ b.pubKeyIndex))).Perm
      (db.filter fun b => decide (s ≤ b.pubKeyIndex)) := by
  have base := List.filter_append_perm (fun b : Bid => decide (b.pubKeyIndex < s + 1000))
    (db.filter fun b => decide (s ≤ b.pubKeyIndex))
  rw [List.filter_filter, List.filter_filter] at base
  have e1 : (db.filter fun b =>
      decide (b.pubKeyIndex < s + 1000) && decide (s ≤ b.pubKeyIndex)) = window db s := by
    unfold window
    apply List.filter_congr
    intro b _
    rw [Bool.and_comm]
  have e2 : (db.filter fun b =>
      (!decide (b.pubKeyIndex < s + 1000)) && decide (s ≤ b.pubKeyIndex))
      = db.filter fun b => decide (s + 1000 ≤ b.pubKeyIndex) := by
    apply List.filter_congr
    intro b _
    by_cases h : s + 1000 ≤ b.pubKeyIndex
    · simp [h, show ¬ b.pubKeyIndex < s + 1000 by omega, show s ≤ b.pubKeyIndex by omega]
    · simp [h, show b.pubKeyIndex < s + 1000 by omega]
  rw [e1, e2] at base
  exact base

theorem fetchLoop_ideal (db : List Bid) (hng : NoGap db) :
    ∀ (fuel k : Nat) (acc : List Bid), 1 ≤ fuel → maxIdx db / 1000 + 2 ≤ fuel + k →
      ∃ rest, fetchBidsLoop (idealServer db) fuel (1000 * k) acc = .ok (acc ++ rest) ∧
        rest.Perm (db.filter fun b => decide (1000 * k ≤ b.pubKeyIndex)) := by
  intro fuel
  induction fuel with
  | zero => intro k acc h1 _; omega
  | succ n ih =>
    intro k acc _ h2
    cases hw : window db (1000 * k) with
    | nil =>
      refine ⟨[], ?_, ?_⟩
      · show fetchBidsLoop (idealServer db) (n + 1) (1000 * k) acc = .ok (acc ++ [])
        rw [List.append_nil]
        simp [fetchBidsLoop, idealServer, api_post_request, hw]
      · have hnone : ∀ b ∈ db, ¬ (1000 * k ≤ b.pubKeyIndex) := by
          intro b hb hle
          exact hng k ⟨b, hb, hle⟩ hw
        rw [filter_atLeast_eq_nil db _ hnone]
    | cons b bs =>
      have hbmem : b ∈ window db (1000 * k) := by
        rw [hw]; exact List.mem_cons_self b bs
      have hbdb : b ∈ db := (List.mem_filter.mp hbmem).1
      have hbrange : 1000 * k ≤ b.pubKeyIndex := by
        have h3 := (List.mem_filter.mp hbmem).2
        simp only [Bool.and_eq_true, decide_eq_true_eq] at h3
        exact h3.1
      have hkmax : k ≤ maxIdx db / 1000 := by
        have h3 : b.pubKeyIndex ≤ maxIdx db := mem_le_maxIdx db b hbdb
        exact (Nat.le_div_iff_mul_le (by norm_num)).mpr (by omega)
      obtain ⟨rest, heq, hperm⟩ := ih (k + 1) (acc ++ (b :: bs)) (by omega) (by omega)
      refine ⟨(b :: bs) ++ rest, ?_, ?_⟩
      · have hstep : fetchBidsLoop (idealServer db) (n + 1) (1000 * k) acc
            = fetchBidsLoop (idealServer db) n (1000 * k + 1000) (acc ++ (b :: bs)) := by
          simp [fetchBidsLoop, idealServer, api_post_request, hw]
        rw [hstep, show 1000 * k + 1000 = 1000 * (k + 1) by ring, heq, List.append_assoc]
      · have hsplit := window_split_perm db (1000 * k)
        rw [hw] at hsplit
        have hp2 : ((b :: bs) ++ rest).Perm
            ((b :: bs) ++ (db.filter fun x => decide (1000 * (k + 1) ≤ x.pubKeyIndex))) :=
          List.Perm.append_left _ hperm
        refine hp2.trans ?_
        rw [show 1000 * (k + 1) = 1000 * k + 1000 by ring]
        exact hsplit

theorem applyBid_bids (st : Store) (b : Bid) :
    (applyBid st b).bids = insertOrReplaceBid st.bids (bidToRow b) := by
  cases hv : b.validator <;> simp [applyBid, hv]

theorem filter_id_eq_self (t : List BidRow) (i : String) (h : i ∉ t.map fun r => r.id) :
    (t.filter fun x => x.id != i) = t := by
  apply List.filter_eq_self.mpr
  intro r hr
  simp only [bne_iff_ne, ne_eq]
  intro he
  exact h (he ▸ List.mem_map_of_mem (fun r => r.id) hr)

theorem applyBatch_bids_length : ∀ (l : List Bid) (st : Store),
    ((l.map fun b => b.id).Nodup) → (∀ b ∈ l, b.id ∉ st.bids.map fun r => r.id) →
    (applyBatch st l).bids.length = st.bids.length + l.length := by
  intro l
  induction l with
  | nil => intro st _ _; simp [applyBatch]
  | cons b bs ih =>
    intro st hnd hnew
    have hstep : applyBatch st (b :: bs) = applyBatch (applyBid st b) bs := rfl
    have hb1 : (applyBid st b).bids = bidToRow b :: st.bids := by
      rw [applyBid_bids]
      unfold insertOrReplaceBid
      rw [filter_id_eq_self st.bids (bidToRow b).id (hnew b (List.mem_cons_self b bs))]
    rw [List.map_cons] at hnd
    have hnotin : b.id ∉ bs.map fun b2 => b2.id := (List.nodup_cons.mp hnd).1
    have hnd2 := (List.nodup_cons.mp hnd).2
    have hnew2 : ∀ b2 ∈ bs, b2.id ∉ (applyBid st b).bids.map fun r => r.id := by
      intro b2 hb2
      rw [hb1, List.map_cons]
      simp only [List.mem_cons]
      rintro (h | h)
      · have h2 : b2.id = b.id := h
        exact hnotin (h2 ▸ List.mem_map_of_mem (fun b3 => b3.id) hb2)
      · exact hnew b2 (List.mem_cons_of_mem b hb2) h
    rw [hstep, ih (applyBid st b) hnd2 hnew2, hb1]
    simp [List.length_cons]
    omega

/-- Claim C2 (amended): on a faithfully served dataset with distinct ids
the fetch loop of record_bids terminates at the first empty (or
malformed) page; when additionally no cursor window before the last
record is empty — the no-gap condition — the accumulated sequence it
stores contains every record exactly once (size N) sorted ascending by
pubKeyIndex, and upserting it into an empty store yields N rows.  Without
the no-gap condition the loop can break early and drop records, which the
counterexample makes concrete. -/
theorem record_bids_pagination_complete (db : List Bid) (hng : NoGap db)
    (hids : ((db.map fun b => b.id).Nodup)) (fuel : Nat)
    (hfuel : maxIdx db / 1000 + 2 ≤ fuel) :
    ∃ l, fetchSortedBids (idealServer db) fuel = .ok l ∧ l.Perm db ∧
      l.length = db.length ∧ List.Sorted byIndex l ∧
      (applyBatch emptyStore l).bids.length = db.length := by
  obtain ⟨rest, heq, hperm⟩ := fetchLoop_ideal db hng fuel 0 [] (by omega) (by omega)
  rw [show (1000 : Nat) * 0 = 0 by ring] at heq hperm
  have hfilter : (db.filter fun b => decide (0 ≤ b.pubKeyIndex)) = db := by
    apply List.filter_eq_self.mpr
    intro b _
    simp
  rw [hfilter] at hperm
  have hperm2 : (sortBids rest).Perm db :=
    (List.perm_insertionSort byIndex rest).trans hperm
  refine ⟨sortBids rest, ?_, hperm2, hperm2.length_eq, ?_, ?_⟩
  · unfold fetchSortedBids
    rw [heq]
    simp [Except.map, sortBids]
  · exact List.sorted_insertionSort byIndex rest
  · have hids2 : (((sortBids rest).map fun b => b.id).Nodup) :=
      ((hperm2.map fun b => b.id).nodup_iff).mpr hids
    rw [applyBatch_bids_length (sortBids rest) emptyStore hids2
      (by intro b _; simp [emptyStore])]
    simp [emptyStore, hperm2.length_eq]

/-- Witness for the C2 theorem on a gap-free two-page dataset. -/
theorem record_bids_pagination_complete_witness :
    NoGap pagedDb ∧
    (∃ l, fetchSortedBids (idealServer pagedDb) 3 = .ok l ∧ l.Perm pagedDb ∧
      l.length = pagedDb.length ∧ List.Sorted byIndex l ∧
      (applyBatch emptyStore l).bids.length = pagedDb.length) := by
  have hng : NoGap pagedDb := by
    intro k hk
    obtain ⟨b, hb, hle⟩ := hk
    have hb2 : b = pagedBid0 ∨ b = pagedBid1 := by simpa [pagedDb] using hb
    have hk1 : k ≤ 1 := by
      rcases hb2 with rfl | rfl
      · simp [pagedBid0] at hle; omega
      · simp [pagedBid1] at hle; omega
    interval_cases k <;> decide
  exact ⟨hng, record_bids_pagination_complete pagedDb hng (by decide) 3 (by decide)⟩

/-- Claim C2, counterexample: the dataset holding records at pubKeyIndex
0 and 2000 makes the window [1000, 2000) empty, the loop breaks there,
and the accumulated (and stored) sequence has size 1, not N = 2 — the
fetch is not complete for every dataset with distinct indices. -/
theorem record_bids_pagination_gap :
    fetchSortedBids (idealServer gappedDb) 5 = .ok [pagedBid0] ∧
    gappedDb.length = 2 ∧ ([pagedBid0] : List Bid).length ≠ gappedDb.length :=
  ⟨rfl, rfl, by decide⟩

end EtherFiBids
